import Mathlib

/-!
Shallow embedding of `src/audio_utils.py` from the EchoSOS WebApp repository:
the acoustic-protocol table, the chirp generator `generate_chirp`, and the
spectral detector `analyze_and_detect_chirp`, together with theorems settling
the specification claims about them.

Modelling conventions:
* audio samples and spectral magnitudes are real numbers (`ℝ`);
* frequencies and the sample rate are rationals (`ℚ`), so that the frequency
  axis and the positive-frequency mask stay decidable;
* the `ValueError` that `np.argmax` raises on an empty array is modelled by
  `Option`: the detector returns `none` exactly when the Python code raises.
-/

open scoped BigOperators

namespace EchoSOS

/-- The protocol table from `audio_utils.py` lines 16-20: an ordered mapping
from emergency name to its frequency band `(start_hz, end_hz)`. Python dicts
iterate in insertion order, so a list of pairs is a faithful model. -/
def EMERGENCIES : List (String × ℚ × ℚ) :=
  [("Medical Alert", (15000, 16000)),
   ("Public Harassment", (17000, 18000)),
   ("Fire / Smoke", (19000, 20000))]

/-- `SAMPLE_RATE = 44100` (line 23). -/
def SAMPLE_RATE : ℕ := 44100

/-- `DURATION = 30` seconds (line 24). -/
def DURATION : ℕ := 30

/-- `POWER_THRESHOLD = 500` (line 27), the module-level constant the detector
reads. -/
def POWER_THRESHOLD : ℝ := 500

/-- Number of generated samples: `int(SAMPLE_RATE * DURATION)` (line 50). -/
def numSamples : ℕ := SAMPLE_RATE * DURATION

/-- Key lookup in the `EMERGENCIES` dict: `EMERGENCIES[emergency_name]`
(lines 43-47), returning the band when the name is a key. -/
def lookupBand (name : String) : Option (ℚ × ℚ) :=
  (EMERGENCIES.find? (fun e => e.1 == name)).map Prod.snd

/-- The time axis `t = np.linspace(0, DURATION, numSamples, endpoint=False)`
(line 50): the k-th instant is `k * DURATION / numSamples`. -/
noncomputable def tAxis (k : ℕ) : ℝ :=
  (k : ℝ) * (DURATION : ℝ) / (numSamples : ℝ)

/-- One sample of `scipy.signal.chirp(t, f0, t1, f1, method='linear')`
(line 53): `cos(2π·(f0·t + 0.5·(f1 − f0)·t²/t1))` with `t1 = DURATION`. -/
noncomputable def chirpSample (f0 f1 : ℚ) (t : ℝ) : ℝ :=
  Real.cos (2 * Real.pi * ((f0 : ℝ) * t + 0.5 * ((f1 : ℝ) - (f0 : ℝ)) * t * t / (DURATION : ℝ)))

/-- `generate_chirp` (lines 32-55): unknown names log and return an empty
array; known names produce the linear chirp over the full time axis. -/
noncomputable def generate_chirp (emergency_name : String) : List ℝ :=
  match lookupBand emergency_name with
  | none => []
  | some (f0, f1) => (List.range numSamples).map (fun k => chirpSample f0 f1 (tAxis k))

/-- One signed `fftfreq` numerator: `np.fft.fftfreq(N, d)` lays out the bin
indices as `0, 1, ..., (N-1)//2, -(N//2), ..., -1`. -/
def fftfreqVal (N k : ℕ) : ℤ :=
  if k ≤ (N - 1) / 2 then (k : ℤ) else (k : ℤ) - (N : ℤ)

/-- The frequency of bin `k`: `fftfreq(N, 1/sample_rate)[k] = val * sr / N`
(line 83). -/
def xfVal (N : ℕ) (sr : ℚ) (k : ℕ) : ℚ :=
  (fftfreqVal N k : ℚ) * sr / (N : ℚ)

/-- The indices selected by `positive_mask = xf > 0` (line 86), in order. -/
def posIdx (N : ℕ) (sr : ℚ) : List ℕ :=
  (List.range N).filter (fun k => decide (0 < xfVal N sr k))

/-- Bin `j` of the discrete Fourier transform `scipy.fft.fft(audio_data)`
(line 82): `X_j = Σ_k x_k · exp(-2πi·j·k/N)`. -/
noncomputable def dft (audio : List ℝ) (j : ℕ) : ℂ :=
  ∑ k in Finset.range audio.length,
    ((audio.getD k 0 : ℝ) : ℂ) *
      Complex.exp (-2 * (Real.pi : ℂ) * Complex.I * (j : ℂ) * (k : ℂ) / (audio.length : ℂ))

/-- The magnitudes `np.abs(yf[positive_mask])` (line 88), in bin order. -/
noncomputable def posMags (audio : List ℝ) (sr : ℚ) : List ℝ :=
  (posIdx audio.length sr).map (fun k => Complex.abs (dft audio k))

open Classical in
/-- `np.argmax` (line 91): index and value of the first maximum of a list;
`none` models the `ValueError` numpy raises on an empty array. -/
noncomputable def argmaxFirst : List ℝ → Option (ℕ × ℝ)
  | [] => none
  | x :: xs =>
    match argmaxFirst xs with
    | none => some (0, x)
    | some (i, m) => if x < m then some (i + 1, m) else some (0, x)

/-- Lines 82-93 of the detector: FFT, positive mask, argmax; returns
`(peak_freq, peak_power)`, or `none` when numpy would raise. -/
noncomputable def peakOf (audio : List ℝ) (sr : ℚ) : Option (ℚ × ℝ) :=
  match argmaxFirst (posMags audio sr) with
  | none => none
  | some (i, p) => some (xfVal audio.length sr ((posIdx audio.length sr).getD i 0), p)

/-- The classification loop of lines 100-102: scan the table in order and
return the first name whose band contains `pf` inclusively. -/
def findBand : List (String × ℚ × ℚ) → ℚ → Option String
  | [], _ => none
  | e :: rest, pf => if e.2.1 ≤ pf ∧ pf ≤ e.2.2 then some e.1 else findBand rest pf

/-- `analyze_and_detect_chirp` (lines 60-105). The outer `Option` is `none`
exactly when the Python function raises; otherwise it carries the returned
triple `(detected_name, peak_freq, peak_power)`. -/
noncomputable def analyze_and_detect_chirp (audio : List ℝ) (sr : ℚ) :
    Option (Option String × ℚ × ℝ) :=
  if audio.length = 0 then some (none, 0, 0)
  else
    match peakOf audio sr with
    | none => none
    | some (pf, pp) =>
      if pp < POWER_THRESHOLD then some (none, pf, pp)
      else
        match findBand EMERGENCIES pf with
        | some name => some (some name, pf, pp)
        | none => some (some "Unknown Signal", pf, pp)

/-- Modelled from the spec: §4.2 gives the detector the contract
`analyze(buffer, sample_rate, protocol_table, power_threshold)`, with the
power threshold a caller-supplied parameter (default 500). Identical to
`analyze_and_detect_chirp` except that the threshold is the argument
`power_threshold` instead of the global `POWER_THRESHOLD`. -/
noncomputable def analyze_spec (audio : List ℝ) (sr : ℚ) (power_threshold : ℝ) :
    Option (Option String × ℚ × ℝ) :=
  if audio.length = 0 then some (none, 0, 0)
  else
    match peakOf audio sr with
    | none => none
    | some (pf, pp) =>
      if pp < power_threshold then some (none, pf, pp)
      else
        match findBand EMERGENCIES pf with
        | some name => some (some name, pf, pp)
        | none => some (some "Unknown Signal", pf, pp)

/-- A band entry contains a frequency (inclusive on both ends), as in the
membership test of line 101. -/
def inBand (pf : ℚ) (e : String × ℚ × ℚ) : Prop :=
  e.2.1 ≤ pf ∧ pf ≤ e.2.2

theorem argmaxFirst_eq_none (l : List ℝ) : argmaxFirst l = none ↔ l = [] := by
  cases l with
  | nil => simp [argmaxFirst]
  | cons x xs =>
    simp only [argmaxFirst]
    cases h : argmaxFirst xs with
    | none => simp
    | some im =>
      obtain ⟨i, m⟩ := im
      dsimp only
      by_cases hx : x < m
      · rw [if_pos hx]; simp
      · rw [if_neg hx]; simp

theorem argmaxFirst_spec (l : List ℝ) (i : ℕ) (m : ℝ)
    (h : argmaxFirst l = some (i, m)) :
    ∃ hi : i < l.length, l.get ⟨i, hi⟩ = m ∧
      (∀ j (hj : j < l.length), l.get ⟨j, hj⟩ ≤ m) ∧
      (∀ j, j < i → ∀ hj : j < l.length, l.get ⟨j, hj⟩ < m) := by
  induction l generalizing i m with
  | nil => simp [argmaxFirst] at h
  | cons x xs ih =>
    simp only [argmaxFirst] at h
    cases hxs : argmaxFirst xs with
    | none =>
      rw [hxs] at h
      dsimp only at h
      simp only [Option.some.injEq, Prod.mk.injEq] at h
      obtain ⟨rfl, rfl⟩ := h
      have hnil : xs = [] := (argmaxFirst_eq_none xs).mp hxs
      subst hnil
      refine ⟨by simp, rfl, ?_, ?_⟩
      · intro j hj
        have hj1 : j < 1 := by simpa using hj
        have hj0 : j = 0 := by omega
        subst hj0
        exact le_refl _
      · intro j hj
        omega
    | some pq =>
      obtain ⟨p, q⟩ := pq
      rw [hxs] at h
      dsimp only at h
      obtain ⟨hp, hgetp, hmax, hfirst⟩ := ih p q hxs
      by_cases hx : x < q
      · rw [if_pos hx] at h
        simp only [Option.some.injEq, Prod.mk.injEq] at h
        obtain ⟨rfl, rfl⟩ := h
        refine ⟨by simpa using Nat.succ_lt_succ hp, by simpa using hgetp, ?_, ?_⟩
        · intro j hj
          cases j with
          | zero => exact le_of_lt hx
          | succ n =>
            have hn : n < xs.length := by simpa using hj
            simpa using hmax n hn
        · intro j hj hj2
          cases j with
          | zero => simpa using hx
          | succ n =>
            have hn : n < xs.length := by simpa using hj2
            have : n < p := by omega
            simpa using hfirst n this hn
      · rw [if_neg hx] at h
        simp only [Option.some.injEq, Prod.mk.injEq] at h
        obtain ⟨rfl, rfl⟩ := h
        refine ⟨by simp, rfl, ?_, ?_⟩
        · intro j hj
          cases j with
          | zero => exact le_refl _
          | succ n =>
            have hn : n < xs.length := by simpa using hj
            have hq : q ≤ x := le_of_not_lt hx
            calc (x :: xs).get ⟨n + 1, hj⟩ = xs.get ⟨n, hn⟩ := by simp
              _ ≤ q := hmax n hn
              _ ≤ x := hq
        · intro j hj
          omega

theorem argmaxFirst_of_ne_nil (l : List ℝ) (h : l ≠ []) :
    ∃ i m, argmaxFirst l = some (i, m) := by
  cases hl : argmaxFirst l with
  | none => exact absurd ((argmaxFirst_eq_none l).mp hl) h
  | some im => exact ⟨im.1, im.2, by simp [hl]⟩

theorem findBand_eq_none (l : List (String × ℚ × ℚ)) (pf : ℚ) :
    findBand l pf = none ↔ ∀ e ∈ l, ¬ inBand pf e := by
  induction l with
  | nil => simp [findBand]
  | cons e rest ih =>
    simp only [findBand]
    by_cases he : e.2.1 ≤ pf ∧ pf ≤ e.2.2
    · rw [if_pos he]
      simp only [List.mem_cons]
      constructor
      · intro h; simp at h
      · intro h
        exact absurd he (h e (Or.inl rfl))
    · rw [if_neg he]
      rw [ih]
      constructor
      · intro h a ha
        rcases List.mem_cons.mp ha with rfl | ha2
        · exact he
        · exact h a ha2
      · intro h a ha
        exact h a (List.mem_cons_of_mem _ ha)

theorem findBand_first (l : List (String × ℚ × ℚ)) (pf : ℚ) (i : ℕ)
    (hi : i < l.length) (hband : inBand pf (l.get ⟨i, hi⟩))
    (hfirst : ∀ j, j < i → ∀ hj : j < l.length, ¬ inBand pf (l.get ⟨j, hj⟩)) :
    findBand l pf = some (l.get ⟨i, hi⟩).1 := by
  induction l generalizing i with
  | nil => simp at hi
  | cons e rest ih =>
    cases i with
    | zero =>
      simp only [List.get] at hband ⊢
      simp only [findBand]
      have hband2 : e.2.1 ≤ pf ∧ pf ≤ e.2.2 := hband
      rw [if_pos hband2]
    | succ n =>
      have hne : ¬ inBand pf e := by
        have := hfirst 0 (Nat.succ_pos n) (by simp)
        simpa using this
      simp only [findBand]
      have hne2 : ¬ (e.2.1 ≤ pf ∧ pf ≤ e.2.2) := hne
      rw [if_neg hne2]
      have hn : n < rest.length := by simpa using hi
      have := ih n hn (by simpa using hband) ?_
      · simpa using this
      · intro j hj hj2
        have := hfirst (j + 1) (by omega) (by simpa using Nat.succ_lt_succ hj2)
        simpa using this

theorem findBand_mem (l : List (String × ℚ × ℚ)) (pf : ℚ) (name : String)
    (h : findBand l pf = some name) : ∃ e ∈ l, e.1 = name := by
  induction l with
  | nil => simp [findBand] at h
  | cons e rest ih =>
    simp only [findBand] at h
    by_cases he : e.2.1 ≤ pf ∧ pf ≤ e.2.2
    · rw [if_pos he] at h
      simp only [Option.some.injEq] at h
      exact ⟨e, List.mem_cons_self e rest, h⟩
    · rw [if_neg he] at h
      obtain ⟨a, ha, hname⟩ := ih h
      exact ⟨a, List.mem_cons_of_mem _ ha, hname⟩

theorem mem_posIdx (N : ℕ) (sr : ℚ) (k : ℕ) :
    k ∈ posIdx N sr ↔ k < N ∧ 0 < xfVal N sr k := by
  simp [posIdx, List.mem_filter, List.mem_range]

theorem one_mem_posIdx (N : ℕ) (sr : ℚ) (h3 : 3 ≤ N) (hsr : 0 < sr) :
    1 ∈ posIdx N sr := by
  rw [mem_posIdx]
  refine ⟨by omega, ?_⟩
  have h1 : fftfreqVal N 1 = 1 := by
    unfold fftfreqVal
    rw [if_pos (by omega)]
    norm_num
  have hN : (0 : ℚ) < (N : ℚ) := by exact_mod_cast (by omega : 0 < N)
  unfold xfVal
  rw [h1]
  simpa using div_pos (by simpa using hsr) hN

theorem xfVal_lt_half (N : ℕ) (sr : ℚ) (k : ℕ) (hsr : 0 < sr) (hk : k < N)
    (hpos : 0 < xfVal N sr k) : xfVal N sr k < sr / 2 := by
  have hN : (0 : ℚ) < (N : ℚ) := by exact_mod_cast (by omega : 0 < N)
  unfold xfVal fftfreqVal at hpos ⊢
  by_cases hle : k ≤ (N - 1) / 2
  · rw [if_pos hle] at hpos ⊢
    have h2k : 2 * k < N := by omega
    rw [div_lt_div_iff hN (by norm_num : (0:ℚ) < 2)]
    push_cast
    have hcast : (2 * k : ℚ) < (N : ℚ) := by exact_mod_cast h2k
    nlinarith [hsr, hcast]
  · exfalso
    rw [if_neg hle] at hpos
    push_cast at hpos
    have hq : (k : ℚ) < (N : ℚ) := by exact_mod_cast hk
    have hneg : ((k : ℚ) - (N : ℚ)) * sr / (N : ℚ) < 0 :=
      div_neg_of_neg_of_pos (mul_neg_of_neg_of_pos (by linarith) hsr) hN
    linarith

theorem posMags_length (audio : List ℝ) (sr : ℚ) :
    (posMags audio sr).length = (posIdx audio.length sr).length := by
  simp [posMags]

theorem peakOf_nil_eq_none (audio : List ℝ) (sr : ℚ) (h : audio.length = 0) :
    peakOf audio sr = none := by
  have hpos : posIdx audio.length sr = [] := by rw [h]; rfl
  have hmags : posMags audio sr = [] := by simp [posMags, hpos]
  simp [peakOf, hmags, argmaxFirst]

theorem posIdx_three_bins : posIdx 3 3 = [1] := by
  have h0 : xfVal 3 3 0 = 0 := by norm_num [xfVal, fftfreqVal]
  have h1 : xfVal 3 3 1 = 1 := by norm_num [xfVal, fftfreqVal]
  have h2 : xfVal 3 3 2 = -1 := by norm_num [xfVal, fftfreqVal]
  unfold posIdx
  rw [show List.range 3 = [0, 1, 2] from rfl]
  simp only [List.filter_cons, List.filter_nil, decide_eq_true_eq, h0, h1, h2]
  norm_num

theorem posIdx_one_bin : posIdx 1 44100 = [] := by
  have h0 : xfVal 1 44100 0 = 0 := by norm_num [xfVal, fftfreqVal]
  unfold posIdx
  rw [show List.range 1 = [0] from rfl]
  simp only [List.filter_cons, List.filter_nil, decide_eq_true_eq, h0]
  norm_num

theorem posIdx_two_bins : posIdx 2 44100 = [] := by
  have h0 : xfVal 2 44100 0 = 0 := by norm_num [xfVal, fftfreqVal]
  have h1 : xfVal 2 44100 1 = -22050 := by norm_num [xfVal, fftfreqVal]
  unfold posIdx
  rw [show List.range 2 = [0, 1] from rfl]
  simp only [List.filter_cons, List.filter_nil, decide_eq_true_eq, h0, h1]
  norm_num

theorem dft_delta (c : ℝ) (j : ℕ) : dft [c, 0, 0] j = (c : ℂ) := by
  unfold dft
  rw [show List.length [c, 0, 0] = 3 from rfl]
  rw [Finset.sum_range_succ, Finset.sum_range_succ, Finset.sum_range_succ,
    Finset.sum_range_zero]
  simp

theorem peakOf_delta (c : ℝ) (hc : 0 ≤ c) : peakOf [c, 0, 0] 3 = some (1, c) := by
  have hlen : List.length [c, 0, 0] = 3 := rfl
  have habs : Complex.abs (dft [c, 0, 0] 1) = c := by
    rw [dft_delta]
    rw [Complex.abs_ofReal]
    exact abs_of_nonneg hc
  have hmags : posMags [c, 0, 0] 3 = [c] := by
    unfold posMags
    rw [hlen, posIdx_three_bins]
    simp [habs]
  have hxf : xfVal 3 3 1 = 1 := by norm_num [xfVal, fftfreqVal]
  unfold peakOf
  rw [hmags, show argmaxFirst [c] = some (0, c) from by simp [argmaxFirst]]
  rw [hlen, posIdx_three_bins]
  dsimp only [List.getD]
  simp [hxf]

/-- C8: for every sample rate (and, via the spec-modelled parameterized
variant, any threshold), the detector applied to a zero-length buffer returns
`(none, 0, 0)` immediately, with no classification attempted. -/
theorem analyze_empty_buffer (sr : ℚ) (thr : ℝ) :
    analyze_and_detect_chirp [] sr = some (none, 0, 0) ∧
    analyze_spec [] sr thr = some (none, 0, 0) := by
  constructor <;> rfl

/-- C9: whenever the detector returns, the category component of the result is
one of the protocol table's key names, the literal "Unknown Signal", or none. -/
theorem analyze_category_invariant (audio : List ℝ) (sr : ℚ) (cat : Option String)
    (pf : ℚ) (pp : ℝ)
    (h : analyze_and_detect_chirp audio sr = some (cat, pf, pp)) :
    cat = none ∨ cat = some "Unknown Signal" ∨ ∃ e ∈ EMERGENCIES, cat = some e.1 := by
  unfold analyze_and_detect_chirp at h
  by_cases h0 : audio.length = 0
  · rw [if_pos h0] at h
    simp only [Option.some.injEq, Prod.mk.injEq] at h
    exact Or.inl h.1.symm
  · rw [if_neg h0] at h
    cases hp : peakOf audio sr with
    | none =>
      rw [hp] at h
      exact Option.noConfusion h
    | some pr =>
      obtain ⟨pf2, pp2⟩ := pr
      rw [hp] at h
      dsimp only at h
      by_cases hlt : pp2 < POWER_THRESHOLD
      · rw [if_pos hlt] at h
        simp only [Option.some.injEq, Prod.mk.injEq] at h
        exact Or.inl h.1.symm
      · rw [if_neg hlt] at h
        cases hf : findBand EMERGENCIES pf2 with
        | some nm =>
          rw [hf] at h
          simp only [Option.some.injEq, Prod.mk.injEq] at h
          obtain ⟨e, he, hname⟩ := findBand_mem EMERGENCIES pf2 nm hf
          exact Or.inr (Or.inr ⟨e, he, by rw [← h.1, hname]⟩)
        | none =>
          rw [hf] at h
          simp only [Option.some.injEq, Prod.mk.injEq] at h
          exact Or.inr (Or.inl h.1.symm)

/-- Witness for C9 at the concrete call `analyze_and_detect_chirp [] 1`. -/
theorem analyze_category_invariant_witness :
    (none : Option String) = none ∨ (none : Option String) = some "Unknown Signal" ∨
      ∃ e ∈ EMERGENCIES, (none : Option String) = some e.1 :=
  analyze_category_invariant [] 1 none 0 0 rfl

/-- C5 counterexample: the claim says `generate_chirp` fails with an explicit
UnknownCategory error on an unknown category and does not return a normal
empty buffer; but the code returns exactly the empty buffer for "Tsunami". -/
theorem generate_chirp_tsunami_empty : generate_chirp "Tsunami" = ([] : List ℝ) := by
  have h : lookupBand "Tsunami" = none := by
    unfold lookupBand EMERGENCIES
    simp [List.find?]
  unfold generate_chirp
  rw [h]

/-- C5 as amended: for every category string that is not a key of the protocol
table, `generate_chirp` logs and returns the empty buffer (it has no error
result). -/
theorem generate_chirp_unknown_empty (name : String)
    (h : name ∉ EMERGENCIES.map Prod.fst) : generate_chirp name = [] := by
  have hfind : EMERGENCIES.find? (fun e => e.1 == name) = none := by
    apply List.find?_eq_none.mpr
    intro e he
    simp only [beq_iff_eq]
    intro heq
    exact h (heq ▸ List.mem_map_of_mem Prod.fst he)
  have hl : lookupBand name = none := by
    unfold lookupBand
    rw [hfind]
    rfl
  unfold generate_chirp
  rw [hl]

/-- Witness for C5 (amended) at the spec's concrete scenario, category
"Tsunami". -/
theorem generate_chirp_unknown_empty_witness : generate_chirp "Tsunami" = [] :=
  generate_chirp_unknown_empty "Tsunami" (by decide)

/-- C2: once the detector has computed `peak_freq` and `peak_power`, (i) below
the threshold it returns `(none, pf, pp)` with the peak values still reported;
(ii) at or above the threshold it returns the first table entry, in the
table's defined order, whose band contains `pf` inclusively; (iii) if no band
contains `pf` it returns the sentinel "Unknown Signal", distinct from none. -/
theorem analyze_three_way (audio : List ℝ) (sr : ℚ) (pf : ℚ) (pp : ℝ)
    (h : peakOf audio sr = some (pf, pp)) :
    (pp < POWER_THRESHOLD →
      analyze_and_detect_chirp audio sr = some (none, pf, pp)) ∧
    (POWER_THRESHOLD ≤ pp →
      (∀ i (hi : i < EMERGENCIES.length), inBand pf (EMERGENCIES.get ⟨i, hi⟩) →
        (∀ j, j < i → ∀ hj : j < EMERGENCIES.length,
          ¬ inBand pf (EMERGENCIES.get ⟨j, hj⟩)) →
        analyze_and_detect_chirp audio sr =
          some (some (EMERGENCIES.get ⟨i, hi⟩).1, pf, pp)) ∧
      ((∀ e ∈ EMERGENCIES, ¬ inBand pf e) →
        analyze_and_detect_chirp audio sr = some (some "Unknown Signal", pf, pp))) := by
  have hlen : ¬ audio.length = 0 := by
    intro h0
    rw [peakOf_nil_eq_none audio sr h0] at h
    exact Option.noConfusion h
  unfold analyze_and_detect_chirp
  rw [if_neg hlen, h]
  dsimp only
  constructor
  · intro hlt
    rw [if_pos hlt]
  · intro hge
    have hnlt : ¬ pp < POWER_THRESHOLD := not_lt.mpr hge
    rw [if_neg hnlt]
    constructor
    · intro i hi hband hfirst
      rw [findBand_first EMERGENCIES pf i hi hband hfirst]
    · intro hnone
      rw [(findBand_eq_none EMERGENCIES pf).mpr hnone]

/-- Witness for C2 at the concrete buffer `[1, 0, 0]` with sample rate 3: the
peak is `(freq 1, power 1)` and power 1 is below the threshold 500, so the
result is `(none, 1, 1)`. -/
theorem analyze_three_way_witness :
    analyze_and_detect_chirp [(1 : ℝ), 0, 0] 3 = some (none, 1, 1) :=
  (analyze_three_way [(1 : ℝ), 0, 0] 3 1 1 (peakOf_delta 1 (by norm_num))).1
    (by norm_num [POWER_THRESHOLD])

/-- C7 counterexample: the claim says the power threshold is supplied by the
caller per analyze call; but the code's detector admits no threshold argument
and always behaves as the fixed global 500 — at a caller-chosen threshold of
1000 the spec-modelled parameterized detector disagrees with the code on the
buffer `[600, 0, 0]` (peak power 600). -/
theorem analyze_threshold_not_per_call :
    analyze_spec [(600 : ℝ), 0, 0] 3 1000 ≠
      analyze_and_detect_chirp [(600 : ℝ), 0, 0] 3 := by
  have hpk := peakOf_delta 600 (by norm_num)
  have h1 : analyze_spec [(600 : ℝ), 0, 0] 3 1000 = some (none, 1, 600) := by
    unfold analyze_spec
    rw [if_neg (by simp), hpk]
    dsimp only
    rw [if_pos (by norm_num)]
  have h2 : analyze_and_detect_chirp [(600 : ℝ), 0, 0] 3 =
      some (some "Unknown Signal", 1, 600) := by
    unfold analyze_and_detect_chirp
    rw [if_neg (by simp), hpk]
    dsimp only
    rw [if_neg (by norm_num [POWER_THRESHOLD])]
    rw [show findBand EMERGENCIES 1 = none from by norm_num [findBand, EMERGENCIES]]
  rw [h1, h2]
  simp

/-- C7 as amended: the detection power threshold is the module-level constant
`POWER_THRESHOLD = 500`; the detector takes no per-call threshold parameter
and always behaves as the spec's parameterized detector instantiated at that
fixed global. -/
theorem analyze_fixed_threshold (audio : List ℝ) (sr : ℚ) :
    POWER_THRESHOLD = 500 ∧
    analyze_and_detect_chirp audio sr = analyze_spec audio sr POWER_THRESHOLD :=
  ⟨rfl, rfl⟩

/-- C6 counterexample: the claim says the detector never raises on any finite
buffer, including length 1; but on the one-sample buffer `[1]` there are no
strictly positive frequency bins, `np.argmax` is applied to an empty array,
and the Python code raises `ValueError` (modelled as `none`). -/
theorem analyze_raises_length_one :
    analyze_and_detect_chirp [(1 : ℝ)] 44100 = none := by
  have hmags : posMags [(1 : ℝ)] 44100 = [] := by
    unfold posMags
    rw [show List.length [(1 : ℝ)] = 1 from rfl, posIdx_one_bin]
    rfl
  unfold analyze_and_detect_chirp
  rw [if_neg (by simp)]
  unfold peakOf
  rw [hmags]
  rfl

/-- C6 as amended: for every positive sample rate, the detector runs to
completion and returns a result on every buffer whose length is 0 or at
least 3; for lengths 1 and 2 the strictly-positive-bin set is empty and the
argmax raises. -/
theorem analyze_total_of_three_le (audio : List ℝ) (sr : ℚ) (hsr : 0 < sr)
    (h : audio.length = 0 ∨ 3 ≤ audio.length) :
    ∃ r, analyze_and_detect_chirp audio sr = some r := by
  cases h with
  | inl h0 =>
    exact ⟨(none, 0, 0), by unfold analyze_and_detect_chirp; rw [if_pos h0]⟩
  | inr h3 =>
    have hne : posIdx audio.length sr ≠ [] := by
      intro hnil
      have hmem := one_mem_posIdx audio.length sr h3 hsr
      rw [hnil] at hmem
      simp at hmem
    have hmne : posMags audio sr ≠ [] := by
      intro hnil
      apply hne
      have hlen := congrArg List.length hnil
      rw [posMags_length] at hlen
      exact List.length_eq_zero.mp hlen
    obtain ⟨i, m, him⟩ := argmaxFirst_of_ne_nil _ hmne
    have hlen0 : ¬ audio.length = 0 := by omega
    unfold analyze_and_detect_chirp
    rw [if_neg hlen0]
    unfold peakOf
    rw [him]
    dsimp only
    by_cases hlt : m < POWER_THRESHOLD
    · exact ⟨_, by rw [if_pos hlt]⟩
    · rw [if_neg hlt]
      cases hf : findBand EMERGENCIES
          (xfVal audio.length sr ((posIdx audio.length sr).getD i 0)) with
      | some nm => exact ⟨_, rfl⟩
      | none => exact ⟨_, rfl⟩

/-- Witness for C6 (amended) at the concrete buffer `[1, 0, 0]` with sample
rate 3. -/
theorem analyze_total_of_three_le_witness :
    ∃ r, analyze_and_detect_chirp [(1 : ℝ), 0, 0] 3 = some r :=
  analyze_total_of_three_le [(1 : ℝ), 0, 0] 3 (by norm_num) (Or.inr (by norm_num))

/-- C10 counterexample: the claim asserts peak values are returned for every
buffer of length at least 2; but at length exactly 2 the `fftfreq` layout puts
the Nyquist bin at a negative frequency, the positive-bin set is empty, and
the code raises instead of returning (modelled as `none`). -/
theorem analyze_raises_length_two :
    analyze_and_detect_chirp [(1 : ℝ), 1] 44100 = none := by
  have hmags : posMags [(1 : ℝ), 1] 44100 = [] := by
    unfold posMags
    rw [show List.length [(1 : ℝ), 1] = 2 from rfl, posIdx_two_bins]
    rfl
  unfold analyze_and_detect_chirp
  rw [if_neg (by simp)]
  unfold peakOf
  rw [hmags]
  rfl

/-- C10 as amended: for every buffer of length at least 3 and every positive
sample rate, the detector returns a triple whose peak frequency lies strictly
between 0 and half the sample rate and whose peak power is nonnegative. -/
theorem analyze_peak_range (audio : List ℝ) (sr : ℚ) (h3 : 3 ≤ audio.length)
    (hsr : 0 < sr) :
    ∃ cat pf pp, analyze_and_detect_chirp audio sr = some (cat, pf, pp) ∧
      0 < pf ∧ pf < sr / 2 ∧ 0 ≤ pp := by
  have hne : posIdx audio.length sr ≠ [] := by
    intro hnil
    have hmem := one_mem_posIdx audio.length sr h3 hsr
    rw [hnil] at hmem
    simp at hmem
  have hmne : posMags audio sr ≠ [] := by
    intro hnil
    apply hne
    have hlen := congrArg List.length hnil
    rw [posMags_length] at hlen
    exact List.length_eq_zero.mp hlen
  obtain ⟨i, m, him⟩ := argmaxFirst_of_ne_nil _ hmne
  obtain ⟨hi, hget, hmax, hfirst⟩ := argmaxFirst_spec _ i m him
  have hip : i < (posIdx audio.length sr).length := by
    rw [posMags_length] at hi
    exact hi
  set k := (posIdx audio.length sr).get ⟨i, hip⟩ with hk
  have hgetD : (posIdx audio.length sr).getD i 0 = k := List.getD_eq_get _ 0 hip
  have hkmem : k ∈ posIdx audio.length sr := List.get_mem _ _ _
  have hkval : k < audio.length ∧ 0 < xfVal audio.length sr k :=
    (mem_posIdx audio.length sr k).mp hkmem
  have hpf_pos : 0 < xfVal audio.length sr k := hkval.2
  have hpf_half : xfVal audio.length sr k < sr / 2 :=
    xfVal_lt_half audio.length sr k hsr hkval.1 hkval.2
  have hpp : 0 ≤ m := by
    rw [← hget]
    have : (posMags audio sr).get ⟨i, hi⟩ =
        Complex.abs (dft audio ((posIdx audio.length sr).get ⟨i, hip⟩)) := by
      simp [posMags]
    rw [this]
    exact AbsoluteValue.nonneg _ _
  have hlen0 : ¬ audio.length = 0 := by omega
  unfold analyze_and_detect_chirp
  rw [if_neg hlen0]
  unfold peakOf
  rw [him]
  dsimp only
  rw [hgetD]
  by_cases hlt : m < POWER_THRESHOLD
  · exact ⟨none, _, m, by rw [if_pos hlt], hpf_pos, hpf_half, hpp⟩
  · rw [if_neg hlt]
    cases hf : findBand EMERGENCIES (xfVal audio.length sr k) with
    | some nm => exact ⟨some nm, _, m, rfl, hpf_pos, hpf_half, hpp⟩
    | none => exact ⟨some "Unknown Signal", _, m, rfl, hpf_pos, hpf_half, hpp⟩

/-- Witness for C10 (amended) at the concrete buffer `[1, 0, 0]` with sample
rate 3. -/
theorem analyze_peak_range_witness :
    ∃ cat pf pp, analyze_and_detect_chirp [(1 : ℝ), 0, 0] 3 = some (cat, pf, pp) ∧
      0 < pf ∧ pf < 3 / 2 ∧ 0 ≤ pp :=
  analyze_peak_range [(1 : ℝ), 0, 0] 3 (by norm_num) (by norm_num)

/-- C4 counterexample: the claim asserts that for every non-empty buffer the
detector computes peak values from the strictly positive frequency bins; but
on the non-empty one-sample buffer `[2]` the positive-bin set is empty and no
peak is computed (numpy's argmax raises, modelled as `none`). -/
theorem peak_undefined_singleton : peakOf [(2 : ℝ)] 44100 = none := by
  have hmags : posMags [(2 : ℝ)] 44100 = [] := by
    unfold posMags
    rw [show List.length [(2 : ℝ)] = 1 from rfl, posIdx_one_bin]
    rfl
  unfold peakOf
  rw [hmags]
  rfl

/-- C4 as amended: for every buffer with at least three samples and every
positive sample rate, the detector computes `(peak_freq, peak_power)` from the
bin of maximum magnitude among the strictly positive frequency bins (the
filtered index list `posIdx`), and when several bins share the maximum the
first occurrence (lowest index) wins. -/
theorem peak_argmax_first (audio : List ℝ) (sr : ℚ) (h3 : 3 ≤ audio.length)
    (hsr : 0 < sr) :
    ∃ i, ∃ hi : i < (posMags audio sr).length,
      peakOf audio sr = some
        (xfVal audio.length sr ((posIdx audio.length sr).getD i 0),
         (posMags audio sr).get ⟨i, hi⟩) ∧
      (∀ j (hj : j < (posMags audio sr).length),
        (posMags audio sr).get ⟨j, hj⟩ ≤ (posMags audio sr).get ⟨i, hi⟩) ∧
      (∀ j, j < i → ∀ hj : j < (posMags audio sr).length,
        (posMags audio sr).get ⟨j, hj⟩ < (posMags audio sr).get ⟨i, hi⟩) := by
  have hne : posIdx audio.length sr ≠ [] := by
    intro hnil
    have hmem := one_mem_posIdx audio.length sr h3 hsr
    rw [hnil] at hmem
    simp at hmem
  have hmne : posMags audio sr ≠ [] := by
    intro hnil
    apply hne
    have hlen := congrArg List.length hnil
    rw [posMags_length] at hlen
    exact List.length_eq_zero.mp hlen
  obtain ⟨i, m, him⟩ := argmaxFirst_of_ne_nil _ hmne
  obtain ⟨hi, hget, hmax, hfirst⟩ := argmaxFirst_spec _ i m him
  refine ⟨i, hi, ?_, ?_, ?_⟩
  · unfold peakOf
    rw [him]
    dsimp only
    rw [hget]
  · intro j hj
    rw [hget]
    exact hmax j hj
  · intro j hji hj
    rw [hget]
    exact hfirst j hji hj

/-- Witness for C4 (amended) at the concrete buffer `[1, 0, 0]` with sample
rate 3. -/
theorem peak_argmax_first_witness :
    ∃ i, ∃ hi : i < (posMags [(1 : ℝ), 0, 0] 3).length,
      peakOf [(1 : ℝ), 0, 0] 3 = some
        (xfVal (List.length [(1 : ℝ), 0, 0]) 3
          ((posIdx (List.length [(1 : ℝ), 0, 0]) 3).getD i 0),
         (posMags [(1 : ℝ), 0, 0] 3).get ⟨i, hi⟩) ∧
      (∀ j (hj : j < (posMags [(1 : ℝ), 0, 0] 3).length),
        (posMags [(1 : ℝ), 0, 0] 3).get ⟨j, hj⟩ ≤
          (posMags [(1 : ℝ), 0, 0] 3).get ⟨i, hi⟩) ∧
      (∀ j, j < i → ∀ hj : j < (posMags [(1 : ℝ), 0, 0] 3).length,
        (posMags [(1 : ℝ), 0, 0] 3).get ⟨j, hj⟩ <
          (posMags [(1 : ℝ), 0, 0] 3).get ⟨i, hi⟩) :=
  peak_argmax_first [(1 : ℝ), 0, 0] 3 (by norm_num) (by norm_num)

theorem getD_map_range (n k : ℕ) (f : ℕ → ℝ) (hk : k < n) :
    ((List.range n).map f).getD k 0 = f k := by
  have hlen : k < ((List.range n).map f).length := by simpa using hk
  rw [List.getD_eq_getElem _ 0 hlen]
  simp

theorem numSamples_eq : numSamples = 1323000 := by
  norm_num [numSamples, SAMPLE_RATE, DURATION]

/-- C3: for every category in the protocol table with band `(f0, f1)`, the
generated chirp has exact length `round(SAMPLE_RATE * DURATION) = 1323000`,
its k-th sample is `cos(2π·(f0·t + (f1−f0)·t²/(2·DURATION)))` at
`t = k·DURATION/N` on the left-closed right-open axis `[0, DURATION)`, and
every sample lies in `[-1, 1]`. -/
theorem generate_chirp_contract (name : String) (f0 f1 : ℚ)
    (h : lookupBand name = some (f0, f1)) :
    (generate_chirp name).length = 1323000 ∧
    (∀ k, k < 1323000 →
      (generate_chirp name).getD k 0 =
        Real.cos (2 * Real.pi * ((f0 : ℝ) * ((k : ℝ) * 30 / 1323000) +
          ((f1 : ℝ) - (f0 : ℝ)) * ((k : ℝ) * 30 / 1323000) ^ 2 / (2 * 30)))) ∧
    (∀ x ∈ generate_chirp name, -1 ≤ x ∧ x ≤ 1) := by
  unfold generate_chirp
  rw [h]
  dsimp only
  refine ⟨?_, ?_, ?_⟩
  · simp [numSamples_eq]
  · intro k hk
    rw [numSamples_eq, getD_map_range _ _ _ hk]
    unfold chirpSample tAxis
    rw [numSamples_eq]
    norm_num [DURATION]
    congr 1
    ring
  · intro x hx
    simp only [List.mem_map] at hx
    obtain ⟨k, _, rfl⟩ := hx
    exact ⟨Real.neg_one_le_cos _, Real.cos_le_one _⟩

/-- Witness for C3 at the category "Medical Alert". -/
theorem generate_chirp_contract_witness :
    lookupBand "Medical Alert" = some (15000, 16000) ∧
    (generate_chirp "Medical Alert").length = 1323000 :=
  ⟨rfl, (generate_chirp_contract "Medical Alert" 15000 16000 rfl).1⟩

end EchoSOS
